import Mathlib

/-!
Verification of the natural-language specification of
`InfrastructureCalibration.cc` (camodocal infrastructure-based calibration)
against a shallow embedding of its code.

Conventions of the embedding:
* `double` values computed by the code are modelled as `ℚ` where every value
  the code manipulates is an exact machine number (every IEEE double is a
  rational), and as `ℝ` where the claim itself is about Euclidean geometry
  (`hypot`).  The `DBL_MAX` / `uint64 max` sentinels of the code are modelled
  as `Option` / the literal `2 ^ 64 - 1` respectively.
* External numeric library calls that the spec treats as opaque capabilities
  (Eigen norms, the aggregate reprojection-error evaluator which routes
  through the opaque camera model and `quaternionAvg`) appear as function
  parameters of the embedding.
* Rigid 4x4 homogeneous transforms (`Eigen::Matrix4d` poses) are modelled at
  the level of the `Pose` class of the source: a unit quaternion plus a
  translation, with composition and inverse given by the standard rigid
  formulas (exact for rigid transforms).
-/

namespace InfraCalib

/-! ## Pose primitives (quaternion + translation, exact rationals) -/

/-- Quaternion with rational coefficients, modelling `Eigen::Quaterniond`. -/
structure QuatQ where
  w : ℚ
  x : ℚ
  y : ℚ
  z : ℚ
deriving DecidableEq

/-- Three-vector with rational coefficients, modelling `Eigen::Vector3d`. -/
structure Vec3Q where
  x : ℚ
  y : ℚ
  z : ℚ
deriving DecidableEq

/-- Rigid pose: rotation (unit quaternion) plus translation, modelling the
`Pose` class / a rigid `Eigen::Matrix4d`. -/
structure PoseQ where
  q : QuatQ
  t : Vec3Q
deriving DecidableEq

def idQuat : QuatQ := ⟨1, 0, 0, 0⟩

def zeroVec3 : Vec3Q := ⟨0, 0, 0⟩

/-- The identity transform (`Eigen::Matrix4d::Identity()`). -/
def idPose : PoseQ := ⟨idQuat, zeroVec3⟩

def qmul (a b : QuatQ) : QuatQ :=
  ⟨a.w * b.w - a.x * b.x - a.y * b.y - a.z * b.z,
   a.w * b.x + a.x * b.w + a.y * b.z - a.z * b.y,
   a.w * b.y - a.x * b.z + a.y * b.w + a.z * b.x,
   a.w * b.z + a.x * b.y - a.y * b.x + a.z * b.w⟩

def qconj (a : QuatQ) : QuatQ := ⟨a.w, -a.x, -a.y, -a.z⟩

/-- Rotation of a vector by a (unit) quaternion via the sandwich product. -/
def qrot (a : QuatQ) (v : Vec3Q) : Vec3Q :=
  let p := qmul (qmul a ⟨0, v.x, v.y, v.z⟩) (qconj a)
  ⟨p.x, p.y, p.z⟩

def vadd (u v : Vec3Q) : Vec3Q := ⟨u.x + v.x, u.y + v.y, u.z + v.z⟩

def vneg (u : Vec3Q) : Vec3Q := ⟨-u.x, -u.y, -u.z⟩

/-- Composition of rigid transforms (`A * B` on homogeneous 4x4 matrices). -/
def poseComp (a b : PoseQ) : PoseQ := ⟨qmul a.q b.q, vadd (qrot a.q b.t) a.t⟩

/-- Inverse of a rigid transform (`.inverse()` on a rigid 4x4 matrix,
assuming a unit rotation quaternion). -/
def poseInv (a : PoseQ) : PoseQ := ⟨qconj a.q, vneg (qrot (qconj a.q) a.t)⟩

/-! ## Frames and frame sets -/

/-- One camera frame: its camera id, the solved camera pose
(`frame->camera()->pose()` data) and the capture timestamp. -/
structure Frame where
  cameraId : ℕ
  pose : PoseQ
  timeStamp : ℕ
deriving DecidableEq

/-- A synchronized frame set: `FrameSet` of the source (timestamp plus the
frames that localized). -/
structure FrameSet where
  timestamp : ℕ
  frames : List Frame
deriving DecidableEq

/-! ## `addOdometry` (claim C3) — modelled over ℝ since the claim is about
Euclidean path length -/

/-- The C library function `hypot(dx, dy)`: Euclidean norm of `(dx, dy)`. -/
noncomputable def hypotR (dx dy : ℝ) : ℝ := Real.sqrt (dx ^ 2 + dy ^ 2)

/-- The odometry-related mutable state of `InfrastructureCalibration`:
`m_x_last`, `m_y_last`, `m_distance`, all `0.0` after construction/`reset`. -/
structure OdoState where
  xLast : ℝ
  yLast : ℝ
  distance : ℝ

/-- One call of `InfrastructureCalibration::addOdometry(x, y, yaw, timestamp)`
(lines 229-240); `yaw` and `timestamp` are ignored by the body. -/
noncomputable def addOdometryStep (s : OdoState) (x y : ℝ) : OdoState :=
  { xLast := x
    yLast := y
    distance :=
      if s.xLast ≠ 0 ∨ s.yLast ≠ 0 then
        s.distance + hypotR (x - s.xLast) (y - s.yLast)
      else
        s.distance }

/-- State after a sequence of `addOdometry` calls starting from the reset
state. -/
noncomputable def runOdometry (samples : List (ℝ × ℝ)) : OdoState :=
  samples.foldl (fun s p => addOdometryStep s p.1 p.2) ⟨0, 0, 0⟩

/-- Written from the words of the spec, for comparison with the code: the sum
of the Euclidean distances between every pair of consecutive samples; the
first call establishes the origin and contributes zero distance. -/
noncomputable def specPathLength : List (ℝ × ℝ) → ℝ
  | p :: q :: rest => hypotR (q.1 - p.1) (q.2 - p.2) + specPathLength (q :: rest)
  | _ => 0

/-- What the code actually accumulates: the consecutive-sample distances,
except that a leg whose starting sample is exactly `(0, 0)` contributes
nothing (the code tests `m_x_last != 0 || m_y_last != 0`). -/
noncomputable def skippedPathLength : List (ℝ × ℝ) → ℝ
  | p :: q :: rest =>
      (if p.1 ≠ 0 ∨ p.2 ≠ 0 then hypotR (q.1 - p.1) (q.2 - p.2) else 0) +
        skippedPathLength (q :: rest)
  | _ => 0

/-! ## `addFrameSet` (claims C2, C4)

The model starts after the per-camera localization fan-out has joined:
`results` holds, per configured camera, the pose the localizer produced for
this instant (`none` when `estimateCameraPose` aborted and the frame has no
camera pose).  The parameter `centerDist` abstracts the external Eigen
computation
`(curr.pose().inverse().block<3,1>(0,3) - prev.pose().inverse().block<3,1>(0,3)).norm()`,
the distance between the two camera centers (an exact double, hence a
rational). -/

/-- The frames that survive the `frames.at(i)->camera().get() == 0` filter
(lines 124-132), in camera order. -/
def localizedFrames (results : List (Option PoseQ)) (ts : ℕ) : List Frame :=
  (List.range results.length).filterMap
    (fun i => (results.getD i none).map (fun p => ⟨i, p, ts⟩))

/-- The candidate `FrameSet` assembled by `addFrameSet` (lines 121-132). -/
def candidateFrameSet (results : List (Option PoseQ)) (ts : ℕ) : FrameSet :=
  ⟨ts, localizedFrames results ts⟩

/-- The per-camera arrays `framePrev` / `frameCurr` (lines 139-165): camera id
`i` maps to the frame of camera `i` in the set, if any (last write wins). -/
def frameArr (fs : FrameSet) : ℕ → Option Frame :=
  fs.frames.foldl (fun g f => fun j => if j = f.cameraId then some f else g j)
    (fun _ => none)

/-- The distance contributed by camera `i` to the keyframe gate, when camera
`i` is present in both sets (lines 168-177). -/
def sharedDistAt (centerDist : PoseQ → PoseQ → ℚ) (prev curr : FrameSet) (i : ℕ) :
    Option ℚ :=
  match frameArr prev i, frameArr curr i with
  | some fp, some fc => some (centerDist fc.pose fp.pose)
  | _, _ => none

/-- All per-camera distances of cameras shared by the two sets, in camera
order. -/
def sharedDists (m : ℕ) (centerDist : PoseQ → PoseQ → ℚ) (prev curr : FrameSet) :
    List ℚ :=
  (List.range m).filterMap (sharedDistAt centerDist prev curr)

/-- One update of the running minimum (lines 178-181); the
`std::numeric_limits<double>::max()` sentinel is modelled as `none`. -/
def minOptStep (acc : Option ℚ) (d : ℚ) : Option ℚ :=
  match acc with
  | none => some d
  | some cur => if d < cur then some d else some cur

/-- The running minimum `keyFrameDist` of lines 167-182. -/
def keyFrameDistOf (m : ℕ) (centerDist : PoseQ → PoseQ → ℚ) (prev curr : FrameSet) :
    Option ℚ :=
  (List.range m).foldl
    (fun acc i =>
      match sharedDistAt centerDist prev curr i with
      | some d => minOptStep acc d
      | none => acc)
    none

/-- Configured keyframe distance threshold `k_minKeyFrameDistance` (0.3). -/
def k_minKeyFrameDistance : ℚ := 3 / 10

/-- `InfrastructureCalibration::addFrameSet` (lines 91-227) acting on the
accumulated `m_framesets` list (`push_back` is modelled as appending). -/
def addFrameSetModel (m : ℕ) (centerDist : PoseQ → PoseQ → ℚ)
    (st : List FrameSet) (results : List (Option PoseQ)) (ts : ℕ) :
    List FrameSet :=
  if results.length ≠ m then st
  else
    let frameset := candidateFrameSet results ts
    if frameset.frames.length < 2 then st
    else
      let add : Bool :=
        match st.getLast? with
        | none => true
        | some prev =>
          match keyFrameDistOf m centerDist prev frameset with
          | none => false
          | some d => if k_minKeyFrameDistance < d then true else false
      if add then st ++ [frameset] else st

/-! ## `loadFrameSets` (claim C2)

The k-way merge of lines 514-575: per-camera frame sequences
(`graph.frameSegments(i).at(0)`) are merged by repeatedly taking all fronts
that share the globally smallest next timestamp.  The `mark` cursors are
modelled by the remaining suffix of each per-camera queue.  The loop body
always executes at least once and always pushes the assembled set; the fuel
of `loadLoop` (total frame count plus one) is enough for any input. -/

/-- The `uint64` maximum used as the timestamp sentinel (line 532). -/
def u64Max : ℕ := 2 ^ 64 - 1

/-- Lines 534-545: smallest next timestamp over the non-exhausted cameras. -/
def mergeTimestamp (queues : List (List Frame)) : ℕ :=
  queues.foldl
    (fun acc q =>
      match q with
      | [] => acc
      | f :: _ => if f.timeStamp < acc then f.timeStamp else acc)
    u64Max

/-- Lines 550-562: the frames taken into the current set (camera order). -/
def mergeTake (ts : ℕ) (queues : List (List Frame)) : List Frame :=
  queues.filterMap
    (fun q =>
      match q with
      | [] => none
      | f :: _ => if ts = f.timeStamp then some f else none)

/-- Lines 550-562: advance the cursor of every camera whose front was taken. -/
def mergeAdvance (ts : ℕ) (queues : List (List Frame)) : List (List Frame) :=
  queues.map
    (fun q =>
      match q with
      | [] => []
      | f :: r => if ts = f.timeStamp then r else q)

def loadLoop : ℕ → List (List Frame) → List FrameSet
  | 0, _ => []
  | Nat.succ fuel, queues =>
    let ts := mergeTimestamp queues
    let frameset : FrameSet := ⟨ts, mergeTake ts queues⟩
    let queues2 := mergeAdvance ts queues
    frameset :: (if queues2.all List.isEmpty then [] else loadLoop fuel queues2)

/-- `InfrastructureCalibration::loadFrameSets` (lines 514-575): `m_framesets`
after clearing and merging the per-camera sequences of the loaded graph. -/
def loadFrameSetsModel (graph : List (List Frame)) : List FrameSet :=
  loadLoop ((graph.map List.length).sum + 1) graph

/-! ## `run` initialization phase (claims C5, C1)

`err i` abstracts the double value `avgError` computed by
`reprojectionError(...)` (line 433) for the hypothesis derived from frame set
`i`: the weighted average reprojection error over all frame sets, under the
candidate extrinsics of frame set `i` and the trial odometry recomputed for
that candidate.  This evaluation routes through external collaborators
(the opaque camera projection model, `quaternionAvg`, `mat2RPY`), so it
enters the embedding as a function parameter. -/

/-- One frame of a stored frame set as seen by the initializer: camera id and
solved camera pose. -/
structure RFrame where
  cameraId : ℕ
  pose : PoseQ

/-- A stored frame set as seen by the initializer. -/
structure RFrameSet where
  frames : List RFrame

/-- The `poses` array of lines 371-377 (`poses.at(cameraId) = pose`, last
write wins).  Uninitialized entries (never read for a complete set with
distinct camera ids) are modelled as `idPose`. -/
def posesOf (fs : RFrameSet) : ℕ → PoseQ :=
  fs.frames.foldl (fun g f => fun j => if j = f.cameraId then f.pose else g j)
    (fun _ => idPose)

/-- The candidate extrinsics hypothesis `T_cam_ref` derived from one complete
frame set (lines 379-392): camera 0 is set to the identity, camera `j` to
`poses.at(0) * poses.at(j).inverse()`. -/
def hypOf (fs : RFrameSet) : ℕ → PoseQ :=
  fun j => if j = 0 then idPose else poseComp (posesOf fs 0) (poseInv (posesOf fs j))

/-- One update of the running best (lines 435-440): strictly smaller average
error replaces the incumbent.  The `DBL_MAX` sentinel of `minReprojError` is
modelled as `none`. -/
def selectBestStep (err : ℕ → ℚ) (acc : Option (ℚ × ℕ)) (i : ℕ) : Option (ℚ × ℕ) :=
  match acc with
  | none => some (err i, i)
  | some (e, b) => if err i < e then some (err i, i) else some (e, b)

/-- The initializer search over candidate frame sets (lines 360-441), on an
index list. -/
def selectBest (err : ℕ → ℚ) (idxs : List ℕ) : Option (ℚ × ℕ) :=
  idxs.foldl (selectBestStep err) none

/-- The indices of the frame sets that pass the completeness test of lines
366-369 (`frameset.frames.size() < m_cameras.size()` skips the set). -/
def completeIdxs (m : ℕ) (framesets : List RFrameSet) : List ℕ :=
  (List.range framesets.length).filter
    (fun i => !decide ((framesets.getD i ⟨[]⟩).frames.length < m))

/-- Completeness in the words of the spec: a localized frame for every
configured camera. -/
def structurallyComplete (m : ℕ) (fs : RFrameSet) : Prop :=
  ∀ j < m, ∃ f ∈ fs.frames, f.cameraId = j

/-- Outcome of the initialization phase of `run` (lines 350-497): the
extrinsics state after the phase, whether the fatal no-complete-frame-set
error was reported (lines 443-447), and whether control reached the
`optimize(false)` call (line 497). -/
structure RunInitResult where
  extrinsics : ℕ → PoseQ
  fatal : Bool
  ranOptimize : Bool

/-- The initialization phase of `InfrastructureCalibration::run` (lines
350-497).  Line 351 fixes camera 0 to the identity; the search installs the
winning hypothesis for cameras `1..m-1` (lines 449-452); on failure the
function prints the error and returns before `optimize` (lines 443-447),
leaving every extrinsic other than camera 0 untouched. -/
def runInitModel (m : ℕ) (framesets : List RFrameSet) (err : ℕ → ℚ)
    (ext0 : ℕ → PoseQ) : RunInitResult :=
  match selectBest err (completeIdxs m framesets) with
  | none => ⟨fun j => if j = 0 then idPose else ext0 j, true, false⟩
  | some (_, b) =>
    ⟨fun j => if j = 0 then idPose else hypOf (framesets.getD b ⟨[]⟩) j,
     false, true⟩

/-! ## `optimize` (claim C1)

The ceres problem of lines 862-926 is modelled through the parameter blocks
it contains.  A camera contributes its extrinsic rotation/translation data to
the problem whenever some frame of that camera has a feature with an
associated 3D point (the `AddResidualBlock` calls of lines 895-914).  The
source never calls `SetParameterBlockConstant`, so the set of blocks held
constant is empty.  The external solver (`ceres::Solve`) may return any
values for blocks that are in the problem; blocks outside the problem keep
their initial values.  Lines 942-945 write the solved extrinsics back for
every camera, including camera 0. -/

/-- A frame as seen by `optimize`: its camera id and how many of its 2D
features have an associated 3D feature (each adds one residual block). -/
structure OFrame where
  cameraId : ℕ
  nFeatures3D : ℕ

/-- The state `optimize` reads: camera count, current extrinsics
(`m_extrinsics`), and the accumulated frame sets. -/
structure OptInput where
  m : ℕ
  ext : ℕ → PoseQ
  framesets : List (List OFrame)

/-- Cameras whose extrinsic rotation and translation data are added to the
problem as parameter blocks by `AddResidualBlock` (lines 869-918). -/
def residualCameras (framesets : List (List OFrame)) : List ℕ :=
  framesets.flatMap
    (fun fs => fs.filterMap
      (fun fr => if fr.nFeatures3D = 0 then none else some fr.cameraId))

/-- The parameter blocks `optimize` marks constant: the source contains no
`SetParameterBlockConstant` call, so none. -/
def optimizeConstantBlocks : List ℕ := []

/-- Camera 0 extrinsic data is a free variable of the problem: it is among
the parameter blocks and is not held constant. -/
def cam0ExtrinsicIsFreeVariable (inp : OptInput) : Prop :=
  0 ∈ residualCameras inp.framesets ∧ 0 ∉ optimizeConstantBlocks

/-- Admissible behavior of the external solver: any values for blocks in the
problem, initial values for blocks outside it. -/
def validSolverOutput (inp : OptInput) (newExt : ℕ → PoseQ) : Prop :=
  ∀ i, i < inp.m → i ∉ residualCameras inp.framesets → newExt i = inp.ext i

/-- The extrinsics state after `optimize`: the write-back loop of lines
942-945 stores the solved `T_cam_ref.at(i)` for every camera `i`. -/
def optimizeModel (inp : OptInput) (newExt : ℕ → PoseQ) : ℕ → PoseQ :=
  fun i => if i < inp.m then newExt i else inp.ext i

/-- A pose that differs from the identity (unit translation along x). -/
def translatePose : PoseQ := ⟨idQuat, ⟨1, 0, 0⟩⟩

/-- Concrete `optimize` input: two cameras, identity extrinsics, one frame
set in which both cameras contributed one feature with a 3D point. -/
def cexOptInput : OptInput := ⟨2, fun _ => idPose, [[⟨0, 1⟩, ⟨1, 1⟩]]⟩

/-- A concrete admissible solver result that moves the camera 0 block. -/
def cexSolverOutput : ℕ → PoseQ := fun i => if i = 0 then translatePose else idPose

/-! ## Feature3D deduplication in `estimateCameraPose` (claim C6)

Lines 776-800: for every inlier 2D-3D correspondence, the candidate 3D
feature is looked up in `m_feature3DMap` (keyed by the raw pointer of the
reference-map `Point3DFeature`); a fresh `Point3DFeature` is allocated only
when the key is absent, and the query 2D feature is attached to the
found-or-created object.  The map lives across all frames and cameras; the
whole step is serialized under `m_feature3DMapMutex`, so the concurrent
execution is modelled as an arbitrary interleaving: a list of
(reference-point identity, 2D-feature identity) pairs processed in sequence.
Object identity is modelled by an arena: allocation hands out consecutive
ids, so two attachments are the same instance iff they carry the same id. -/

/-- Association-list lookup (models `boost::unordered_map::find` keyed by
pointer identity). -/
def alookup (k : ℕ) : List (ℕ × ℕ) → Option ℕ
  | [] => none
  | (a, b) :: r => if k = a then some b else alookup k r

/-- The deduplication state: the map from reference-point identity to the
arena id of the calibration-side `Point3DFeature`, the next fresh arena id,
and the attachment log `p2D->feature3D() = feature3D` (most recent first). -/
structure DedupState where
  map : List (ℕ × ℕ)
  nextId : ℕ
  attach : List (ℕ × ℕ)
deriving DecidableEq

/-- One mutex-protected find-or-create-and-attach step (lines 782-799) for
the correspondence `c = (reference-point id, 2D-feature id)`. -/
def dedupStep (s : DedupState) (c : ℕ × ℕ) : DedupState :=
  match alookup c.1 s.map with
  | some fid => ⟨s.map, s.nextId, (c.2, fid) :: s.attach⟩
  | none => ⟨(c.1, s.nextId) :: s.map, s.nextId + 1, (c.2, s.nextId) :: s.attach⟩

/-- Processing an interleaving of correspondences from the reset state. -/
def runDedup (corrs : List (ℕ × ℕ)) : DedupState :=
  corrs.foldl dedupStep ⟨[], 0, []⟩

/-- The identity of the `Point3DFeature` attached to a given 2D feature. -/
def attachedF3D (s : DedupState) (p : ℕ) : Option ℕ := alookup p s.attach

/-! ## `matchFeatures` and `buildDescriptorMat` (claims C7, C8, C9, C10)

Descriptors are rows of exact doubles; `dist` abstracts the descriptor
distance used by the external matcher.  `Except` models C++ exception
propagation: `std::vector::at` on an out-of-range index throws
`std::out_of_range`. -/

/-- A 2D feature as seen by the matcher: its descriptor row and the element
type of the descriptor matrix (`cv::Mat::type()`). -/
structure Point2DFeature where
  descriptor : List ℚ
  dtype : ℕ
deriving DecidableEq

/-- A descriptor matrix (`cv::Mat`): rows, number of columns, element type. -/
structure DescriptorMat where
  rows : List (List ℚ)
  cols : ℕ
  dtype : ℕ
deriving DecidableEq

inductive MatchError where
  | outOfRange
deriving DecidableEq

/-- One `cv::DMatch`: query row index, train row index, distance.  The
cross-check result matches of lines 1062-1066 leave the distance at its
default, modelled as `0`. -/
structure DMatch where
  queryIdx : ℕ
  trainIdx : ℕ
  distance : ℚ
deriving DecidableEq

/-- `InfrastructureCalibration::buildDescriptorMat` (lines 958-975): builds
the identity index list, then reads `features.at(0)` for the matrix width and
type — which throws `std::out_of_range` on an empty feature list — and stacks
the descriptor rows. -/
def buildDescriptorMat (features : List Point2DFeature) :
    Except MatchError (DescriptorMat × List ℕ) :=
  match features with
  | [] => Except.error MatchError.outOfRange
  | f :: _ =>
    Except.ok
      (⟨features.map Point2DFeature.descriptor, f.descriptor.length, f.dtype⟩,
       List.range features.length)

/-- Stable insertion of a match into a distance-sorted list (ties keep the
earlier, lower-index candidate first). -/
def insertByDistance (m : DMatch) : List DMatch → List DMatch
  | [] => [m]
  | a :: r => if a.distance ≤ m.distance then a :: insertByDistance m r else m :: a :: r

/-- Stable sort of candidate matches by ascending distance. -/
def sortByDistance : List DMatch → List DMatch
  | [] => []
  | a :: r => insertByDistance a (sortByDistance r)

/-- Modelled from the spec: one row of `SurfGPU::knnMatch(query, train, _, 2)`
(the external feature-matching library service, src only declares the call):
for query row `i`, the 2 nearest train descriptors by descriptor distance in
ascending order, as `cv::DMatch` records carrying the query and train row
indices. -/
def knnRow (dist : List ℚ → List ℚ → ℚ) (i : ℕ) (q : List ℚ)
    (train : List (List ℚ)) : List DMatch :=
  (sortByDistance
    ((List.range train.length).map (fun j => ⟨i, j, dist q (train.getD j [])⟩))).take 2

/-- Modelled from the spec: `SurfGPU::knnMatch` with `k = 2` over whole
descriptor matrices — one candidate list per query row. -/
def surfKnnMatch (dist : List ℚ → List ℚ → ℚ) (query train : List (List ℚ)) :
    List (List DMatch) :=
  (List.range query.length).map (fun i => knnRow dist i (query.getD i []) train)

/-- Configured ratio-test threshold `k_maxDistanceRatio` (0.7). -/
def k_maxDistanceRatio : ℚ := 7 / 10

/-- The ratio test applied to one candidate list (lines 1005-1021 for the
forward direction, lines 1023-1039 for the reverse direction): rows with
fewer than two candidates are skipped; the best candidate is kept only if
nearest-distance / second-nearest-distance is strictly below the threshold. -/
def ratioFilterRow : List DMatch → List DMatch
  | a :: b :: _ => if a.distance / b.distance < k_maxDistanceRatio then [a] else []
  | _ => []

def ratioFilter (cands : List (List DMatch)) : List (List DMatch) :=
  cands.map ratioFilterRow

/-- One iteration of the cross-check loop (lines 1043-1068) at query row
`i`. -/
def crossCheckAt (queryIndices trainIndices : List ℕ)
    (fwdMatches revMatches : List (List DMatch)) (i : ℕ) : Option DMatch :=
  match fwdMatches.getD i [] with
  | [] => none
  | fwdMatch :: _ =>
    match revMatches.getD fwdMatch.trainIdx [] with
    | [] => none
    | revMatch :: _ =>
      if fwdMatch.queryIdx = revMatch.trainIdx ∧ fwdMatch.trainIdx = revMatch.queryIdx then
        some ⟨queryIndices.getD fwdMatch.queryIdx 0,
              trainIndices.getD revMatch.queryIdx 0, 0⟩
      else none

/-- The cross-check loop (lines 1041-1068). -/
def crossCheck (queryIndices trainIndices : List ℕ)
    (fwdMatches revMatches : List (List DMatch)) : List DMatch :=
  (List.range fwdMatches.length).filterMap
    (crossCheckAt queryIndices trainIndices fwdMatches revMatches)

/-- `InfrastructureCalibration::matchFeatures` (lines 977-1071). -/
def matchFeatures (dist : List ℚ → List ℚ → ℚ)
    (queryFeatures trainFeatures : List Point2DFeature) :
    Except MatchError (List DMatch) := do
  let (queryDtor, queryIndices) ← buildDescriptorMat queryFeatures
  let (trainDtor, trainIndices) ← buildDescriptorMat trainFeatures
  if queryDtor.cols ≠ trainDtor.cols then
    return []
  if queryDtor.dtype ≠ trainDtor.dtype then
    return []
  let candidateFwdMatches := surfKnnMatch dist queryDtor.rows trainDtor.rows
  let candidateRevMatches := surfKnnMatch dist trainDtor.rows queryDtor.rows
  let fwdMatches := ratioFilter candidateFwdMatches
  let revMatches := ratioFilter candidateRevMatches
  return crossCheck queryIndices trainIndices fwdMatches revMatches

/-- The ratio-passing nearest neighbor of query row `i` (the surviving entry
of the ratio-filtered 2-nearest-neighbor list), as a train row index. -/
def ratioNN (dist : List ℚ → List ℚ → ℚ) (queryRows trainRows : List (List ℚ))
    (i : ℕ) : Option ℕ :=
  (((ratioFilter (surfKnnMatch dist queryRows trainRows)).getD i []).head?).map
    DMatch.trainIdx

/-- The descriptor distance used in the concrete matcher instances below:
absolute difference of width-1 descriptors. -/
def cexDist : List ℚ → List ℚ → ℚ := fun a b => |a.getD 0 0 - b.getD 0 0|

def cexQueryFeatures : List Point2DFeature := [⟨[0], 5⟩, ⟨[10], 5⟩]

def cexTrainFeatures : List Point2DFeature := [⟨[1], 5⟩, ⟨[100], 5⟩]

/-! # Theorems -/

/-! ## Generic helper lemmas -/

theorem except_bind_ok {ε α β : Type} (a : α) (f : α → Except ε β) :
    (Except.ok a >>= f : Except ε β) = f a := rfl

theorem except_bind_err {ε α β : Type} (e : ε) (f : α → Except ε β) :
    (Except.error e >>= f : Except ε β) = Except.error e := rfl

/-! ## Claim C3: `addOdometry` distance accumulation -/

theorem odo_foldl_dist (samples : List (ℝ × ℝ)) : ∀ (x y d : ℝ),
    ((samples.foldl (fun s p => addOdometryStep s p.1 p.2) ⟨x, y, d⟩).distance)
      = d + skippedPathLength ((x, y) :: samples) := by
  induction samples with
  | nil =>
    intro x y d
    simp [skippedPathLength]
  | cons p rest ih =>
    intro x y d
    simp only [List.foldl_cons]
    show ((rest.foldl (fun s p => addOdometryStep s p.1 p.2)
      ⟨p.1, p.2, if x ≠ 0 ∨ y ≠ 0 then d + hypotR (p.1 - x) (p.2 - y) else d⟩).distance) = _
    rw [ih]
    show _ = d + skippedPathLength ((x, y) :: p :: rest)
    rw [show ((x, y) :: p :: rest : List (ℝ × ℝ)) = (x, y) :: p :: rest from rfl]
    simp only [skippedPathLength]
    by_cases h : x ≠ 0 ∨ y ≠ 0
    · rw [if_pos h, if_pos h]
      ring
    · rw [if_neg h, if_neg h]
      ring

/-- Claim C3 (corrected): the distance accumulator equals the sum of the
Euclidean distances between consecutive samples, except that every leg whose
starting sample is exactly `(0, 0)` contributes zero — the code tests
`m_x_last != 0 || m_y_last != 0`, not whether a previous sample exists, so
the first call contributes zero but so does any later leg that starts at the
exact origin. -/
theorem addOdometry_distance_amended (samples : List (ℝ × ℝ)) :
    (runOdometry samples).distance = skippedPathLength ((0, 0) :: samples) := by
  have h := odo_foldl_dist samples 0 0 0
  unfold runOdometry
  rw [h, zero_add]

/-- Claim C3 (counterexample): after the calls `addOdometry 0 0` and
`addOdometry 3 4`, the code leaves the accumulator at `0`, while the sum of
Euclidean distances between consecutive samples (first call contributing
zero) is `5`. -/
theorem addOdometry_distance_counterexample :
    (runOdometry [((0 : ℝ), (0 : ℝ)), (3, 4)]).distance = 0 ∧
    specPathLength [((0 : ℝ), (0 : ℝ)), (3, 4)] = 5 ∧ (0 : ℝ) ≠ 5 := by
  have h5 : hypotR 3 4 = 5 := by
    unfold hypotR
    rw [show ((3 : ℝ) ^ 2 + 4 ^ 2 : ℝ) = 5 ^ 2 by norm_num]
    exact Real.sqrt_sq (by norm_num)
  refine ⟨?_, ?_, by norm_num⟩
  · simp [runOdometry, addOdometryStep]
  · simp only [specPathLength]
    rw [show ((3 : ℝ) - 0) = 3 by ring, show ((4 : ℝ) - 0) = 4 by ring, h5]
    ring

/-! ## Claim C6: Feature3D deduplication -/

theorem dedupStep_of_found {s : DedupState} {c : ℕ × ℕ} {fid : ℕ}
    (h : alookup c.1 s.map = some fid) :
    dedupStep s c = ⟨s.map, s.nextId, (c.2, fid) :: s.attach⟩ := by
  unfold dedupStep
  rw [h]

theorem dedupStep_of_missing {s : DedupState} {c : ℕ × ℕ}
    (h : alookup c.1 s.map = none) :
    dedupStep s c = ⟨(c.1, s.nextId) :: s.map, s.nextId + 1, (c.2, s.nextId) :: s.attach⟩ := by
  unfold dedupStep
  rw [h]

theorem dedupStep_map_stable (s : DedupState) (c : ℕ × ℕ) (r f : ℕ)
    (h : alookup r s.map = some f) : alookup r (dedupStep s c).map = some f := by
  cases hm : alookup c.1 s.map with
  | some fid => rw [dedupStep_of_found hm]; exact h
  | none =>
    rw [dedupStep_of_missing hm]
    have hrc : r ≠ c.1 := by
      intro he
      rw [he, hm] at h
      cases h
    simpa [alookup, hrc] using h

theorem dedup_map_stable (cs : List (ℕ × ℕ)) : ∀ (s : DedupState) (r f : ℕ),
    alookup r s.map = some f → alookup r (cs.foldl dedupStep s).map = some f := by
  induction cs with
  | nil => intro s r f h; exact h
  | cons c rest ih =>
    intro s r f h
    simp only [List.foldl_cons]
    exact ih _ r f (dedupStep_map_stable s c r f h)

theorem dedupStep_binding (s : DedupState) (c : ℕ × ℕ) :
    ∃ v, alookup c.1 (dedupStep s c).map = some v ∧
      (dedupStep s c).attach = (c.2, v) :: s.attach := by
  cases hm : alookup c.1 s.map with
  | some fid =>
    exact ⟨fid, by rw [dedupStep_of_found hm]; exact hm, by rw [dedupStep_of_found hm]⟩
  | none =>
    refine ⟨s.nextId, ?_, by rw [dedupStep_of_missing hm]⟩
    rw [dedupStep_of_missing hm]
    simp [alookup]

theorem dedup_attach_stable (cs : List (ℕ × ℕ)) : ∀ (s : DedupState) (p : ℕ),
    p ∉ cs.map Prod.snd → attachedF3D (cs.foldl dedupStep s) p = attachedF3D s p := by
  induction cs with
  | nil => intro s p _; rfl
  | cons c rest ih =>
    intro s p hp
    simp only [List.map_cons, List.mem_cons, not_or] at hp
    simp only [List.foldl_cons]
    rw [ih _ p hp.2]
    obtain ⟨v, _, hat⟩ := dedupStep_binding s c
    unfold attachedF3D
    rw [hat]
    simp only [alookup]
    rw [if_neg hp.1]

theorem dedup_attached_eq_map (cs : List (ℕ × ℕ)) :
    ∀ (s : DedupState) (r p : ℕ), (r, p) ∈ cs → (cs.map Prod.snd).Nodup →
    ∃ v, attachedF3D (cs.foldl dedupStep s) p = some v ∧
      alookup r (cs.foldl dedupStep s).map = some v := by
  induction cs with
  | nil => intro s r p h _; cases h
  | cons c rest ih =>
    intro s r p hmem hnd
    simp only [List.map_cons, List.nodup_cons] at hnd
    rcases List.mem_cons.mp hmem with heq | hrest
    · obtain ⟨v, hmap, hat⟩ := dedupStep_binding s c
      have hp2 : p = c.2 := by rw [← heq]
      have hr1 : r = c.1 := by rw [← heq]
      refine ⟨v, ?_, ?_⟩
      · rw [List.foldl_cons, dedup_attach_stable rest (dedupStep s c) p (hp2 ▸ hnd.1)]
        unfold attachedF3D
        rw [hat, hp2]
        simp [alookup]
      · rw [List.foldl_cons, hr1]
        exact dedup_map_stable rest _ c.1 v hmap
    · rw [List.foldl_cons]
      exact ih (dedupStep s c) r p hrest hnd.2

/-- Claim C6: any two query 2D features whose inlier correspondences matched
the same reference-map 3D point end up attached to the same `Point3DFeature`
instance — both attachments equal the shared-map entry for that reference
point, which exists (create-if-absent).  The list `corrs` is the serialized
interleaving of the mutex-protected find-or-create-and-attach steps across
all cameras and frames; each 2D feature is attached at most once
(`hnd`), which `estimateCameraPose` guarantees since every inlier
correspondence carries a distinct query feature of one frame. -/
theorem feature3D_dedup_unique (corrs : List (ℕ × ℕ)) (r p q : ℕ)
    (hnd : (corrs.map Prod.snd).Nodup)
    (hp : (r, p) ∈ corrs) (hq : (r, q) ∈ corrs) :
    attachedF3D (runDedup corrs) p = alookup r (runDedup corrs).map ∧
    attachedF3D (runDedup corrs) q = alookup r (runDedup corrs).map ∧
    attachedF3D (runDedup corrs) p = attachedF3D (runDedup corrs) q ∧
    (attachedF3D (runDedup corrs) p).isSome = true := by
  obtain ⟨v, h1, h2⟩ := dedup_attached_eq_map corrs _ r p hp hnd
  obtain ⟨w, h3, h4⟩ := dedup_attached_eq_map corrs _ r q hq hnd
  unfold runDedup
  refine ⟨?_, ?_, ?_, ?_⟩
  · rw [h1, h2]
  · rw [h3, h4]
  · rw [h1, h3]
    rw [h2] at h4
    exact h4
  · rw [h1]
    rfl

/-- Claim C6 witness: two 2D features (ids 1 and 2) matching the same
reference point (id 7). -/
theorem feature3D_dedup_unique_witness :
    attachedF3D (runDedup [(7, 1), (7, 2)]) 1 = alookup 7 (runDedup [(7, 1), (7, 2)]).map ∧
    attachedF3D (runDedup [(7, 1), (7, 2)]) 2 = alookup 7 (runDedup [(7, 1), (7, 2)]).map ∧
    attachedF3D (runDedup [(7, 1), (7, 2)]) 1 = attachedF3D (runDedup [(7, 1), (7, 2)]) 2 ∧
    (attachedF3D (runDedup [(7, 1), (7, 2)]) 1).isSome = true :=
  feature3D_dedup_unique [(7, 1), (7, 2)] 7 1 2 (by decide) (by decide) (by decide)

/-! ## Claim C10: `matchFeatures` on empty feature collections -/

/-- Claim C10: `buildDescriptorMat` reads `features.at(0)` unconditionally,
so `matchFeatures` with an empty query or train collection throws
`std::out_of_range` instead of returning an empty match list. -/
theorem matchFeatures_empty_throws (dist : List ℚ → List ℚ → ℚ)
    (A B : List Point2DFeature) (h : A = [] ∨ B = []) :
    matchFeatures dist A B = Except.error MatchError.outOfRange := by
  rcases h with h | h
  · subst h; rfl
  · subst h
    cases A with
    | nil => rfl
    | cons a A2 => rfl

/-- Claim C10 witness: an empty query collection against a non-empty train
collection. -/
theorem matchFeatures_empty_throws_witness :
    matchFeatures cexDist [] cexTrainFeatures = Except.error MatchError.outOfRange :=
  matchFeatures_empty_throws cexDist [] cexTrainFeatures (Or.inl rfl)

/-! ## Claim C9: incompatible descriptors -/

/-- Claim C9: when the two feature sets have mismatched descriptor length or
mismatched descriptor type, `matchFeatures` logs a warning and returns an
empty match result instead of failing (the log is I/O and is not modelled). -/
theorem matchFeatures_incompatible_descriptors (dist : List ℚ → List ℚ → ℚ)
    (a : Point2DFeature) (A : List Point2DFeature)
    (b : Point2DFeature) (B : List Point2DFeature)
    (h : a.descriptor.length ≠ b.descriptor.length ∨ a.dtype ≠ b.dtype) :
    matchFeatures dist (a :: A) (b :: B) = Except.ok [] := by
  rcases h with h | h
  · simp [matchFeatures, buildDescriptorMat, except_bind_ok, h, pure, Except.pure]
  · by_cases hc : a.descriptor.length ≠ b.descriptor.length
    · simp [matchFeatures, buildDescriptorMat, except_bind_ok, hc, pure, Except.pure]
    · simp [matchFeatures, buildDescriptorMat, except_bind_ok, hc, h, pure, Except.pure]

/-- Claim C9 witness: width-2 query descriptors against width-1 train
descriptors. -/
theorem matchFeatures_incompatible_descriptors_witness :
    matchFeatures cexDist [⟨[0, 0], 5⟩] cexTrainFeatures = Except.ok [] :=
  matchFeatures_incompatible_descriptors cexDist ⟨[0, 0], 5⟩ [] ⟨[1], 5⟩ [⟨[100], 5⟩]
    (Or.inl (by decide))

/-! ## Minimum-fold lemmas (keyframe gate) -/

theorem minOptStep_spec (acc : Option ℚ) (x : ℚ) :
    ∃ v, minOptStep acc x = some v ∧ v ≤ x ∧ (∀ e, acc = some e → v ≤ e) ∧
      (acc = some v ∨ v = x) := by
  cases acc with
  | none =>
    refine ⟨x, rfl, le_refl x, ?_, Or.inr rfl⟩
    intro e he
    exact Option.noConfusion he
  | some c =>
    by_cases h : x < c
    · refine ⟨x, by simp [minOptStep, h], le_refl x, ?_, Or.inr rfl⟩
      intro e he
      cases he
      exact le_of_lt h
    · refine ⟨c, by simp [minOptStep, h], not_lt.mp h, ?_, Or.inl rfl⟩
      intro e he
      cases he
      exact le_refl c

theorem minOptFold_spec (l : List ℚ) : ∀ (acc : Option ℚ) (d : ℚ),
    l.foldl minOptStep acc = some d →
    (acc = some d ∨ d ∈ l) ∧ (∀ x ∈ l, d ≤ x) ∧ (∀ e, acc = some e → d ≤ e) := by
  induction l with
  | nil =>
    intro acc d h
    refine ⟨Or.inl h, ?_, ?_⟩
    · intro x hx
      exact absurd hx (List.not_mem_nil x)
    · intro e he
      simp only [List.foldl_nil] at h
      rw [h] at he
      cases he
      exact le_refl d
  | cons x rest ih =>
    intro acc d h
    rw [List.foldl_cons] at h
    obtain ⟨h1, h2, h3⟩ := ih (minOptStep acc x) d h
    obtain ⟨v, hv, hvx, hve, hvcase⟩ := minOptStep_spec acc x
    have hdv : d ≤ v := h3 v hv
    refine ⟨?_, ?_, ?_⟩
    · rcases h1 with h1 | h1
      · rw [hv] at h1
        cases h1
        rcases hvcase with hc | hc
        · exact Or.inl hc
        · exact Or.inr (hc ▸ List.mem_cons_self _ _)
      · exact Or.inr (List.mem_cons_of_mem _ h1)
    · intro y hy
      rcases List.mem_cons.mp hy with hy | hy
      · exact hy ▸ le_trans hdv hvx
      · exact h2 y hy
    · intro e he
      exact le_trans hdv (hve e he)

theorem minOptFold_isSome_of_acc (l : List ℚ) : ∀ (acc : Option ℚ),
    acc.isSome = true → (l.foldl minOptStep acc).isSome = true := by
  induction l with
  | nil => intro acc h; exact h
  | cons x rest ih =>
    intro acc h
    rw [List.foldl_cons]
    obtain ⟨v, hv, _⟩ := minOptStep_spec acc x
    exact ih _ (by rw [hv]; rfl)

theorem minOptFold_isSome (l : List ℚ) (acc : Option ℚ) (h : l ≠ []) :
    (l.foldl minOptStep acc).isSome = true := by
  cases l with
  | nil => exact absurd rfl h
  | cons x rest =>
    rw [List.foldl_cons]
    obtain ⟨v, hv, _⟩ := minOptStep_spec acc x
    exact minOptFold_isSome_of_acc rest _ (by rw [hv]; rfl)

theorem keyFrameDist_fold_eq (cd : PoseQ → PoseQ → ℚ) (prev curr : FrameSet) :
    ∀ (is : List ℕ) (acc : Option ℚ),
    is.foldl
      (fun acc i =>
        match sharedDistAt cd prev curr i with
        | some d => minOptStep acc d
        | none => acc) acc
      = (is.filterMap (sharedDistAt cd prev curr)).foldl minOptStep acc := by
  intro is
  induction is with
  | nil => intro acc; rfl
  | cons i rest ih =>
    intro acc
    rw [List.foldl_cons, List.filterMap_cons]
    cases hi : sharedDistAt cd prev curr i with
    | some d => rw [List.foldl_cons, ← ih]
    | none => rw [← ih]

theorem keyFrameDistOf_eq_minFold (m : ℕ) (cd : PoseQ → PoseQ → ℚ)
    (prev curr : FrameSet) :
    keyFrameDistOf m cd prev curr = (sharedDists m cd prev curr).foldl minOptStep none := by
  unfold keyFrameDistOf sharedDists
  exact keyFrameDist_fold_eq cd prev curr (List.range m) none

theorem keyFrameDistOf_spec (m : ℕ) (cd : PoseQ → PoseQ → ℚ)
    (prev curr : FrameSet) (d : ℚ) :
    keyFrameDistOf m cd prev curr = some d ↔
      d ∈ sharedDists m cd prev curr ∧ ∀ x ∈ sharedDists m cd prev curr, d ≤ x := by
  rw [keyFrameDistOf_eq_minFold]
  constructor
  · intro h
    obtain ⟨h1, h2, _⟩ := minOptFold_spec _ _ _ h
    rcases h1 with h1 | h1
    · cases h1
    · exact ⟨h1, h2⟩
  · rintro ⟨hmem, hmin⟩
    have hne : sharedDists m cd prev curr ≠ [] := by
      intro he
      rw [he] at hmem
      cases hmem
    have hs := minOptFold_isSome (sharedDists m cd prev curr) none hne
    obtain ⟨e, he⟩ := Option.isSome_iff_exists.mp hs
    obtain ⟨h1, h2, _⟩ := minOptFold_spec _ _ _ he
    rcases h1 with h1 | h1
    · cases h1
    · rw [he]
      exact congrArg some (le_antisymm (hmin e h1) (h2 d hmem)).symm

/-! ## Claim C4: keyframe gate of `addFrameSet` -/

theorem addFrameSetModel_eval (m : ℕ) (cd : PoseQ → PoseQ → ℚ)
    (st : List FrameSet) (results : List (Option PoseQ)) (ts : ℕ)
    (hlen : results.length = m)
    (h2 : ¬ (candidateFrameSet results ts).frames.length < 2) :
    addFrameSetModel m cd st results ts =
      if (match st.getLast? with
          | none => true
          | some prev =>
            match keyFrameDistOf m cd prev (candidateFrameSet results ts) with
            | none => false
            | some d => if k_minKeyFrameDistance < d then true else false)
      then st ++ [candidateFrameSet results ts] else st := by
  unfold addFrameSetModel
  rw [if_neg (by rw [hlen]; exact fun hne => hne rfl)]
  rw [if_neg h2]

/-- Claim C4: the first candidate frame set (empty accumulated list) is always
accepted; a subsequent candidate is appended iff the minimum, over cameras
present in both the previous accepted set and the candidate, of the
translation magnitude between the two camera poses strictly exceeds the
threshold (`keyFrameDistOf` is exactly that minimum, and it exists iff some
camera is shared); a dropped set leaves the list unchanged.  `hlen` is the
image-count precondition of lines 96-100 and `h2` the at-least-two-localized
precondition of lines 134-137. -/
theorem addFrameSet_keyframe_gate (m : ℕ) (cd : PoseQ → PoseQ → ℚ)
    (st : List FrameSet) (results : List (Option PoseQ)) (ts : ℕ)
    (hlen : results.length = m)
    (h2 : 2 ≤ (candidateFrameSet results ts).frames.length) :
    (st = [] → addFrameSetModel m cd st results ts = st ++ [candidateFrameSet results ts]) ∧
    (∀ prev, st.getLast? = some prev →
      (addFrameSetModel m cd st results ts = st ++ [candidateFrameSet results ts] ↔
        ∃ d, keyFrameDistOf m cd prev (candidateFrameSet results ts) = some d ∧
          k_minKeyFrameDistance < d)) ∧
    (∀ prev d, keyFrameDistOf m cd prev (candidateFrameSet results ts) = some d ↔
      (d ∈ sharedDists m cd prev (candidateFrameSet results ts) ∧
        ∀ x ∈ sharedDists m cd prev (candidateFrameSet results ts), d ≤ x)) ∧
    (addFrameSetModel m cd st results ts = st ++ [candidateFrameSet results ts] ∨
      addFrameSetModel m cd st results ts = st) := by
  have h2n : ¬ (candidateFrameSet results ts).frames.length < 2 := not_lt.mpr h2
  have heval := addFrameSetModel_eval m cd st results ts hlen h2n
  have happne : st ++ [candidateFrameSet results ts] ≠ st := by
    intro he
    have : (st ++ [candidateFrameSet results ts]).length = st.length := by rw [he]
    simp at this
  refine ⟨?_, ?_, ?_, ?_⟩
  · intro hst
    rw [heval, hst]
    rfl
  · intro prev hprev
    rw [heval, hprev]
    cases hk : keyFrameDistOf m cd prev (candidateFrameSet results ts) with
    | none =>
      simp only [hk]
      rw [if_neg (by simp)]
      constructor
      · intro he
        exact absurd he.symm happne
      · rintro ⟨d, hd, -⟩
        exact Option.noConfusion hd
    | some d =>
      simp only [hk]
      by_cases ht : k_minKeyFrameDistance < d
      · simp only [if_pos ht, if_true]
        exact ⟨fun _ => ⟨d, rfl, ht⟩, fun _ => by trivial⟩
      · simp only [if_neg ht, Bool.false_eq_true, if_false]
        constructor
        · intro he
          exact absurd he.symm happne
        · rintro ⟨e, he, hte⟩
          cases he
          exact absurd hte ht
  · intro prev d
    exact keyFrameDistOf_spec m cd prev (candidateFrameSet results ts) d
  · rw [heval]
    by_cases hb : (match st.getLast? with
        | none => true
        | some prev =>
          match keyFrameDistOf m cd prev (candidateFrameSet results ts) with
          | none => false
          | some d => if k_minKeyFrameDistance < d then true else false) = true
    · rw [if_pos hb]
      exact Or.inl rfl
    · rw [if_neg hb]
      exact Or.inr rfl

/-- Claim C4 witness: two cameras, both localized, empty accumulated list —
the first candidate set is accepted. -/
theorem addFrameSet_keyframe_gate_witness :
    (([] : List FrameSet) = [] →
      addFrameSetModel 2 (fun _ _ => 0) [] [some idPose, some idPose] 0 =
        [] ++ [candidateFrameSet [some idPose, some idPose] 0]) ∧
    (∀ prev, ([] : List FrameSet).getLast? = some prev →
      (addFrameSetModel 2 (fun _ _ => 0) [] [some idPose, some idPose] 0 =
          [] ++ [candidateFrameSet [some idPose, some idPose] 0] ↔
        ∃ d, keyFrameDistOf 2 (fun _ _ => 0) prev (candidateFrameSet [some idPose, some idPose] 0) = some d ∧
          k_minKeyFrameDistance < d)) ∧
    (∀ prev d, keyFrameDistOf 2 (fun _ _ => 0) prev (candidateFrameSet [some idPose, some idPose] 0) = some d ↔
      (d ∈ sharedDists 2 (fun _ _ => 0) prev (candidateFrameSet [some idPose, some idPose] 0) ∧
        ∀ x ∈ sharedDists 2 (fun _ _ => 0) prev (candidateFrameSet [some idPose, some idPose] 0), d ≤ x)) ∧
    (addFrameSetModel 2 (fun _ _ => 0) [] [some idPose, some idPose] 0 =
        [] ++ [candidateFrameSet [some idPose, some idPose] 0] ∨
      addFrameSetModel 2 (fun _ _ => 0) [] [some idPose, some idPose] 0 = []) :=
  addFrameSet_keyframe_gate 2 (fun _ _ => 0) [] [some idPose, some idPose] 0 rfl
    (by decide)

/-! ## Claim C2: minimum frame-set size -/

/-- Claim C2 (corrected): `addFrameSet` never lets a frame set with fewer than
2 frames into the accumulated list, but `loadFrameSets` performs no such
filtering — the k-way merge appends every assembled set, including sets with
a single frame. -/
theorem frameset_min_size_amended :
    (∀ (m : ℕ) (cd : PoseQ → PoseQ → ℚ) (st : List FrameSet)
      (results : List (Option PoseQ)) (ts : ℕ) (fs : FrameSet),
      fs ∈ addFrameSetModel m cd st results ts → fs ∈ st ∨ 2 ≤ fs.frames.length) ∧
    (∃ fs ∈ loadFrameSetsModel [[⟨0, idPose, 5⟩]], fs.frames.length < 2) := by
  constructor
  · intro m cd st results ts fs hfs
    simp only [addFrameSetModel] at hfs
    split at hfs
    · exact Or.inl hfs
    · split at hfs
      · exact Or.inl hfs
      · rename_i hsz
        split at hfs
        · rcases List.mem_append.mp hfs with hst | hnew
          · exact Or.inl hst
          · rcases List.mem_singleton.mp hnew with rfl
            exact Or.inr (not_lt.mp hsz)
        · exact Or.inl hfs
  · decide

/-- Claim C2 witness: the set accepted by `addFrameSet` into an empty list has
two frames. -/
theorem frameset_min_size_amended_witness :
    candidateFrameSet [some idPose, some idPose] 0 ∈ ([] : List FrameSet) ∨
      2 ≤ (candidateFrameSet [some idPose, some idPose] 0).frames.length :=
  frameset_min_size_amended.1 2 (fun _ _ => 0) [] [some idPose, some idPose] 0
    (candidateFrameSet [some idPose, some idPose] 0) (by decide)

/-- Claim C2 counterexample: deserializing a graph holding one camera with a
single frame appends a frame set with only one frame to the list — a set with
fewer than 2 frames appears in the accumulated list. -/
theorem loadFrameSets_small_set_counterexample :
    loadFrameSetsModel [[⟨0, idPose, 5⟩]] = [⟨5, [⟨0, idPose, 5⟩]⟩] ∧
    ∃ fs ∈ loadFrameSetsModel [[⟨0, idPose, 5⟩]], fs.frames.length < 2 := by
  decide

/-! ## Best-hypothesis selection lemmas (initializer) -/

theorem selectBest_aux (err : ℕ → ℚ) (idxs : List ℕ) :
    ∀ (acc : Option (ℚ × ℕ)) (e : ℚ) (b : ℕ),
    idxs.foldl (selectBestStep err) acc = some (e, b) →
    (acc = some (e, b) ∨ (b ∈ idxs ∧ e = err b)) ∧
    (∀ c ∈ idxs, e ≤ err c) ∧
    (∀ p, acc = some p → e ≤ p.1) := by
  induction idxs with
  | nil =>
    intro acc e b h
    simp only [List.foldl_nil] at h
    refine ⟨Or.inl h, ?_, ?_⟩
    · intro c hc
      exact absurd hc (List.not_mem_nil c)
    · intro p hp
      rw [h] at hp
      cases hp
      exact le_refl e
  | cons i rest ih =>
    intro acc e b h
    rw [List.foldl_cons] at h
    obtain ⟨h1, h2, h3⟩ := ih (selectBestStep err acc i) e b h
    have hstep : ∃ v bv, selectBestStep err acc i = some (v, bv) ∧ v ≤ err i ∧
        (∀ p, acc = some p → v ≤ p.1) ∧ (acc = some (v, bv) ∨ (bv = i ∧ v = err i)) := by
      cases acc with
      | none =>
        exact ⟨err i, i, rfl, le_refl _, fun p hp => Option.noConfusion hp,
          Or.inr ⟨rfl, rfl⟩⟩
      | some p =>
        obtain ⟨e0, b0⟩ := p
        by_cases hlt : err i < e0
        · refine ⟨err i, i, by simp [selectBestStep, hlt], le_refl _, ?_, Or.inr ⟨rfl, rfl⟩⟩
          intro p hp
          cases hp
          exact le_of_lt hlt
        · refine ⟨e0, b0, by simp [selectBestStep, hlt], not_lt.mp hlt, ?_, Or.inl rfl⟩
          intro p hp
          cases hp
          exact le_refl e0
    obtain ⟨v, bv, hv, hvi, hvacc, hvcase⟩ := hstep
    have hev : e ≤ v := h3 (v, bv) hv
    refine ⟨?_, ?_, ?_⟩
    · rcases h1 with h1 | h1
      · rw [hv] at h1
        cases h1
        rcases hvcase with hc | hc
        · exact Or.inl hc
        · refine Or.inr ⟨?_, ?_⟩
          · rw [hc.1]
            exact List.mem_cons_self _ _
          · rw [hc.2, hc.1]
      · exact Or.inr ⟨List.mem_cons_of_mem _ h1.1, h1.2⟩
    · intro c hc
      rcases List.mem_cons.mp hc with hc | hc
      · exact hc ▸ le_trans hev hvi
      · exact h2 c hc
    · intro p hp
      exact le_trans hev (hvacc p hp)

theorem selectBest_spec (err : ℕ → ℚ) (idxs : List ℕ) (e : ℚ) (b : ℕ)
    (h : selectBest err idxs = some (e, b)) :
    b ∈ idxs ∧ e = err b ∧ ∀ c ∈ idxs, e ≤ err c := by
  obtain ⟨h1, h2, _⟩ := selectBest_aux err idxs none e b h
  rcases h1 with h1 | h1
  · exact Option.noConfusion h1
  · exact ⟨h1.1, h1.2, h2⟩

theorem selectBest_fold_isSome (err : ℕ → ℚ) (idxs : List ℕ) :
    ∀ (acc : Option (ℚ × ℕ)), acc.isSome = true →
    (idxs.foldl (selectBestStep err) acc).isSome = true := by
  induction idxs with
  | nil => intro acc h; exact h
  | cons i rest ih =>
    intro acc h
    rw [List.foldl_cons]
    apply ih
    cases acc with
    | none => rfl
    | some p =>
      obtain ⟨e0, b0⟩ := p
      by_cases hlt : err i < e0
      · simp [selectBestStep, hlt]
      · simp [selectBestStep, hlt]

theorem selectBest_isSome (err : ℕ → ℚ) (idxs : List ℕ) (h : idxs ≠ []) :
    (selectBest err idxs).isSome = true := by
  cases idxs with
  | nil => exact absurd rfl h
  | cons i rest =>
    unfold selectBest
    rw [List.foldl_cons]
    exact selectBest_fold_isSome err rest _ (by cases h2 : selectBestStep err none i <;> simp [selectBestStep] at h2 ⊢)

/-! ## Completeness characterization (initializer) -/

theorem completeIdxs_mem (m : ℕ) (framesets : List RFrameSet) (i : ℕ) :
    i ∈ completeIdxs m framesets ↔
      i < framesets.length ∧ ¬ ((framesets.getD i ⟨[]⟩).frames.length < m) := by
  unfold completeIdxs
  rw [List.mem_filter, List.mem_range]
  simp

theorem complete_size_iff (m : ℕ) (fs : RFrameSet)
    (hnd : (fs.frames.map RFrame.cameraId).Nodup)
    (hlt : ∀ f ∈ fs.frames, f.cameraId < m) :
    m ≤ fs.frames.length ↔ structurallyComplete m fs := by
  constructor
  · intro hm j hj
    have hsub : (fs.frames.map RFrame.cameraId).toFinset ⊆ Finset.range m := by
      intro x hx
      rw [List.mem_toFinset] at hx
      rw [Finset.mem_range]
      obtain ⟨f, hf, hfx⟩ := List.mem_map.mp hx
      exact hfx ▸ hlt f hf
    have hcard : (fs.frames.map RFrame.cameraId).toFinset.card =
        (fs.frames.map RFrame.cameraId).length := List.toFinset_card_of_nodup hnd
    have heq : (fs.frames.map RFrame.cameraId).toFinset = Finset.range m := by
      apply Finset.eq_of_subset_of_card_le hsub
      rw [Finset.card_range, hcard, List.length_map]
      exact hm
    have hj2 : j ∈ (fs.frames.map RFrame.cameraId).toFinset := by
      rw [heq]
      exact Finset.mem_range.mpr hj
    rw [List.mem_toFinset] at hj2
    obtain ⟨f, hf, hfx⟩ := List.mem_map.mp hj2
    exact ⟨f, hf, hfx⟩
  · intro hc
    have hsub : Finset.range m ⊆ (fs.frames.map RFrame.cameraId).toFinset := by
      intro j hj
      rw [Finset.mem_range] at hj
      obtain ⟨f, hf, hfx⟩ := hc j hj
      rw [List.mem_toFinset]
      exact List.mem_map.mpr ⟨f, hf, hfx⟩
    have hcard := Finset.card_le_card hsub
    rw [Finset.card_range] at hcard
    calc m ≤ (fs.frames.map RFrame.cameraId).toFinset.card := hcard
      _ ≤ (fs.frames.map RFrame.cameraId).length := (fs.frames.map RFrame.cameraId).toFinset_card_le
      _ = fs.frames.length := List.length_map _ _

/-! ## Claim C5: the initialization phase of `run` -/

/-- Claim C5: the initializer considers exactly the structurally complete
frame sets (given the invariant that camera ids within a set are distinct and
in range, the size test of line 366 is equivalent to having a localized frame
for every configured camera); the retained hypothesis has the globally lowest
average reprojection error over all complete frame sets and becomes the
extrinsics seed; when no frame set is complete, the run reports the fatal
error and returns without calling `optimize` and without touching the
extrinsics of any camera other than camera 0. -/
theorem run_initialization (m : ℕ) (framesets : List RFrameSet) (err : ℕ → ℚ)
    (ext0 : ℕ → PoseQ)
    (hids : ∀ fs ∈ framesets,
      (fs.frames.map RFrame.cameraId).Nodup ∧ ∀ f ∈ fs.frames, f.cameraId < m) :
    (∀ i, i < framesets.length →
      (i ∈ completeIdxs m framesets ↔ structurallyComplete m (framesets.getD i ⟨[]⟩))) ∧
    (completeIdxs m framesets = [] →
      (runInitModel m framesets err ext0).fatal = true ∧
      (runInitModel m framesets err ext0).ranOptimize = false ∧
      ∀ j, j ≠ 0 → (runInitModel m framesets err ext0).extrinsics j = ext0 j) ∧
    (∀ e b, selectBest err (completeIdxs m framesets) = some (e, b) →
      b ∈ completeIdxs m framesets ∧ e = err b ∧
      (∀ c ∈ completeIdxs m framesets, err b ≤ err c) ∧
      (runInitModel m framesets err ext0).fatal = false ∧
      (runInitModel m framesets err ext0).ranOptimize = true ∧
      ∀ j, (runInitModel m framesets err ext0).extrinsics j =
        if j = 0 then idPose else hypOf (framesets.getD b ⟨[]⟩) j) ∧
    (completeIdxs m framesets ≠ [] → (runInitModel m framesets err ext0).fatal = false) := by
  refine ⟨?_, ?_, ?_, ?_⟩
  · intro i hi
    rw [completeIdxs_mem]
    have hmem : framesets.getD i ⟨[]⟩ ∈ framesets := by
      rw [List.getD_eq_getElem framesets ⟨[]⟩ hi]
      exact List.getElem_mem hi
    obtain ⟨hnd, hlt⟩ := hids _ hmem
    rw [not_lt, complete_size_iff m _ hnd hlt]
    exact ⟨fun h => h.2, fun h => ⟨hi, h⟩⟩
  · intro hempty
    have hsel : selectBest err (completeIdxs m framesets) = none := by
      rw [hempty]
      rfl
    refine ⟨?_, ?_, ?_⟩
    · simp [runInitModel, hsel]
    · simp [runInitModel, hsel]
    · intro j hj
      simp [runInitModel, hsel, hj]
  · intro e b hsel
    obtain ⟨hbmem, hbe, hmin⟩ := selectBest_spec err _ e b hsel
    refine ⟨hbmem, hbe, ?_, ?_, ?_, ?_⟩
    · intro c hc
      exact hbe ▸ hmin c hc
    · simp [runInitModel, hsel]
    · simp [runInitModel, hsel]
    · intro j
      simp [runInitModel, hsel]
  · intro hne
    have hs := selectBest_isSome err _ hne
    obtain ⟨p, hp⟩ := Option.isSome_iff_exists.mp hs
    obtain ⟨e, b⟩ := p
    simp [runInitModel, hp]

/-- Claim C5 witness: a run with no frame sets at all — no structurally
complete frame set exists, the fatal branch is taken and refinement is
skipped. -/
theorem run_initialization_witness :
    (∀ i, i < ([] : List RFrameSet).length →
      (i ∈ completeIdxs 1 [] ↔ structurallyComplete 1 (([] : List RFrameSet).getD i ⟨[]⟩))) ∧
    (completeIdxs 1 [] = [] →
      (runInitModel 1 [] (fun _ => 0) (fun _ => idPose)).fatal = true ∧
      (runInitModel 1 [] (fun _ => 0) (fun _ => idPose)).ranOptimize = false ∧
      ∀ j, j ≠ 0 → (runInitModel 1 [] (fun _ => 0) (fun _ => idPose)).extrinsics j = idPose) ∧
    (∀ e b, selectBest (fun _ => 0) (completeIdxs 1 []) = some (e, b) →
      b ∈ completeIdxs 1 [] ∧ e = (fun _ : ℕ => (0 : ℚ)) b ∧
      (∀ c ∈ completeIdxs 1 [], (fun _ : ℕ => (0 : ℚ)) b ≤ (fun _ : ℕ => (0 : ℚ)) c) ∧
      (runInitModel 1 [] (fun _ => 0) (fun _ => idPose)).fatal = false ∧
      (runInitModel 1 [] (fun _ => 0) (fun _ => idPose)).ranOptimize = true ∧
      ∀ j, (runInitModel 1 [] (fun _ => 0) (fun _ => idPose)).extrinsics j =
        if j = 0 then idPose else hypOf (([] : List RFrameSet).getD b ⟨[]⟩) j) ∧
    (completeIdxs 1 [] ≠ [] →
      (runInitModel 1 [] (fun _ => 0) (fun _ => idPose)).fatal = false) :=
  run_initialization 1 [] (fun _ => 0) (fun _ => idPose) (by simp)

/-! ## Claim C1: camera 0 extrinsic across initialization and refinement -/

/-- Claim C1 (corrected): after the initialization phase, the camera 0
extrinsic is the identity transform; `optimize`, however, does treat the
camera 0 extrinsic as a free variable — its rotation and translation data
enter the problem as parameter blocks whenever a camera 0 frame contributes a
residual, no block is ever marked constant, and the write-back loop stores
the solver output for every camera, so camera 0 stays at the identity after
refinement only if the solver happens to return it unchanged. -/
theorem cam0_extrinsic_amended (m : ℕ) (framesets : List RFrameSet) (err : ℕ → ℚ)
    (ext0 : ℕ → PoseQ) (inp : OptInput) (newExt : ℕ → PoseQ) :
    (runInitModel m framesets err ext0).extrinsics 0 = idPose ∧
    (0 ∈ residualCameras inp.framesets → cam0ExtrinsicIsFreeVariable inp) ∧
    (∀ i, i < inp.m → optimizeModel inp newExt i = newExt i) ∧
    (inp.ext 0 = idPose → newExt 0 = idPose → optimizeModel inp newExt 0 = idPose) := by
  refine ⟨?_, ?_, ?_, ?_⟩
  · cases hsel : selectBest err (completeIdxs m framesets) with
    | none => simp [runInitModel, hsel]
    | some p =>
      obtain ⟨e, b⟩ := p
      simp [runInitModel, hsel]
  · intro h
    exact ⟨h, by simp [optimizeConstantBlocks]⟩
  · intro i hi
    unfold optimizeModel
    rw [if_pos hi]
  · intro h0 hn
    unfold optimizeModel
    by_cases hm : 0 < inp.m
    · rw [if_pos hm]
      exact hn
    · rw [if_neg hm]
      exact h0

/-- Claim C1 witness: the general statement applied to the concrete
`optimize` input and solver output used in the counterexample. -/
theorem cam0_extrinsic_amended_witness :
    (runInitModel 1 [] (fun _ => 0) (fun _ => translatePose)).extrinsics 0 = idPose ∧
    (0 ∈ residualCameras cexOptInput.framesets → cam0ExtrinsicIsFreeVariable cexOptInput) ∧
    (∀ i, i < cexOptInput.m →
      optimizeModel cexOptInput cexSolverOutput i = cexSolverOutput i) ∧
    (cexOptInput.ext 0 = idPose → cexSolverOutput 0 = idPose →
      optimizeModel cexOptInput cexSolverOutput 0 = idPose) :=
  cam0_extrinsic_amended 1 [] (fun _ => 0) (fun _ => translatePose) cexOptInput
    cexSolverOutput

/-- Claim C1 counterexample: a concrete admissible execution of `optimize` —
two cameras, both contributing residuals, identity extrinsics on entry —
in which the solver moves the camera 0 parameter block (which is free: it is
in the problem and never held constant) and the write-back leaves the camera
0 extrinsic different from the identity. -/
theorem cam0_extrinsic_counterexample :
    validSolverOutput cexOptInput cexSolverOutput ∧
    cexOptInput.ext 0 = idPose ∧
    cam0ExtrinsicIsFreeVariable cexOptInput ∧
    optimizeModel cexOptInput cexSolverOutput 0 ≠ idPose := by
  refine ⟨?_, rfl, ⟨by decide, by decide⟩, by decide⟩
  intro i hi hmem
  exfalso
  apply hmem
  have hres : residualCameras cexOptInput.framesets = [0, 1] := by decide
  rw [hres]
  have hm2 : cexOptInput.m = 2 := rfl
  rw [hm2] at hi
  rcases i with _ | _ | i
  · exact List.mem_cons_self _ _
  · exact List.mem_cons_of_mem _ (List.mem_cons_self _ _)
  · exact absurd hi (by omega)

/-! ## Matcher lemmas (claims C7, C8) -/

theorem mem_insertByDistance (x m : DMatch) : ∀ (l : List DMatch),
    x ∈ insertByDistance m l ↔ x = m ∨ x ∈ l := by
  intro l
  induction l with
  | nil => simp [insertByDistance]
  | cons a r ih =>
    unfold insertByDistance
    by_cases h : a.distance ≤ m.distance
    · rw [if_pos h]
      simp only [List.mem_cons, ih]
      tauto
    · rw [if_neg h]
      simp only [List.mem_cons]

theorem mem_sortByDistance (x : DMatch) : ∀ (l : List DMatch),
    x ∈ sortByDistance l ↔ x ∈ l := by
  intro l
  induction l with
  | nil => simp [sortByDistance]
  | cons a r ih =>
    unfold sortByDistance
    rw [mem_insertByDistance, ih, List.mem_cons]

theorem mem_knnRow (dist : List ℚ → List ℚ → ℚ) (i : ℕ) (q : List ℚ)
    (train : List (List ℚ)) (m : DMatch) (hm : m ∈ knnRow dist i q train) :
    m.queryIdx = i ∧ m.trainIdx < train.length := by
  unfold knnRow at hm
  have hm2 := List.take_subset 2 _ hm
  rw [mem_sortByDistance] at hm2
  obtain ⟨j, hj, hjm⟩ := List.mem_map.mp hm2
  rw [List.mem_range] at hj
  constructor
  · rw [← hjm]
  · rw [← hjm]
    exact hj

theorem ratioFilterRow_eq_cons (c : List DMatch) (f : DMatch) (rest : List DMatch)
    (h : ratioFilterRow c = f :: rest) :
    ∃ b tail, c = f :: b :: tail ∧
      f.distance / b.distance < k_maxDistanceRatio ∧ rest = [] := by
  match c with
  | [] => exact List.noConfusion h
  | [a] => exact List.noConfusion h
  | a :: b :: tail =>
    simp only [ratioFilterRow] at h
    by_cases hr : a.distance / b.distance < k_maxDistanceRatio
    · rw [if_pos hr] at h
      obtain ⟨h1, h2⟩ := List.cons.inj h
      exact ⟨b, tail, by rw [h1], h1 ▸ hr, h2.symm⟩
    · rw [if_neg hr] at h
      exact List.noConfusion h

theorem ratioFilterRow_short (c : List DMatch)
    (h : ∀ a b tail, c ≠ a :: b :: tail) : ratioFilterRow c = [] := by
  match c with
  | [] => rfl
  | [a] => rfl
  | a :: b :: tail => exact absurd rfl (h a b tail)

theorem getD_ratioFilter (c : List (List DMatch)) (i : ℕ) (hi : i < c.length) :
    (ratioFilter c).getD i [] = ratioFilterRow (c.getD i []) := by
  unfold ratioFilter
  rw [List.getD_eq_getElem?_getD, List.getElem?_map, List.getD_eq_getElem?_getD,
    List.getElem?_eq_getElem hi]
  rfl

theorem length_surfKnnMatch (dist : List ℚ → List ℚ → ℚ)
    (query train : List (List ℚ)) :
    (surfKnnMatch dist query train).length = query.length := by
  simp [surfKnnMatch]

theorem length_ratioFilter_surfKnn (dist : List ℚ → List ℚ → ℚ)
    (query train : List (List ℚ)) :
    (ratioFilter (surfKnnMatch dist query train)).length = query.length := by
  simp [ratioFilter, surfKnnMatch]

theorem getD_surfKnnMatch (dist : List ℚ → List ℚ → ℚ)
    (query train : List (List ℚ)) (i : ℕ) (hi : i < query.length) :
    (surfKnnMatch dist query train).getD i [] = knnRow dist i (query.getD i []) train := by
  unfold surfKnnMatch
  rw [List.getD_eq_getElem?_getD, List.getElem?_map, List.getElem?_range hi]
  rfl

theorem getD_range (n i : ℕ) (hi : i < n) : (List.range n).getD i 0 = i := by
  rw [List.getD_eq_getElem?_getD, List.getElem?_range hi]
  rfl

theorem crossCheck_mem (queryIndices trainIndices : List ℕ)
    (fwd rev : List (List DMatch)) (m : DMatch)
    (h : m ∈ crossCheck queryIndices trainIndices fwd rev) :
    ∃ i, i < fwd.length ∧ crossCheckAt queryIndices trainIndices fwd rev i = some m := by
  unfold crossCheck at h
  obtain ⟨i, hi, hstep⟩ := List.mem_filterMap.mp h
  exact ⟨i, List.mem_range.mp hi, hstep⟩

theorem crossCheckAt_eq_some (queryIndices trainIndices : List ℕ)
    (fwd rev : List (List DMatch)) (i : ℕ) (m : DMatch)
    (h : crossCheckAt queryIndices trainIndices fwd rev i = some m) :
    ∃ f fr r rr, fwd.getD i [] = f :: fr ∧ rev.getD f.trainIdx [] = r :: rr ∧
      f.queryIdx = r.trainIdx ∧ f.trainIdx = r.queryIdx ∧
      m = ⟨queryIndices.getD f.queryIdx 0, trainIndices.getD r.queryIdx 0, 0⟩ := by
  unfold crossCheckAt at h
  split at h
  · exact Option.noConfusion h
  · rename_i f fr hf
    split at h
    · exact Option.noConfusion h
    · rename_i r rr hr
      split at h
      · rename_i hc
        cases h
        exact ⟨f, fr, r, rr, hf, hr, hc.1, hc.2, rfl⟩
      · exact Option.noConfusion h

theorem crossCheckAt_none_of_empty_row (queryIndices trainIndices : List ℕ)
    (fwd rev : List (List DMatch)) (i : ℕ) (h : fwd.getD i [] = []) :
    crossCheckAt queryIndices trainIndices fwd rev i = none := by
  unfold crossCheckAt
  rw [h]

theorem matchFeatures_ok_eval (dist : List ℚ → List ℚ → ℚ)
    (a b : Point2DFeature) (A B : List Point2DFeature)
    (hcols : a.descriptor.length = b.descriptor.length) (hty : a.dtype = b.dtype) :
    matchFeatures dist (a :: A) (b :: B) =
      Except.ok (crossCheck (List.range (a :: A).length) (List.range (b :: B).length)
        (ratioFilter (surfKnnMatch dist ((a :: A).map Point2DFeature.descriptor)
          ((b :: B).map Point2DFeature.descriptor)))
        (ratioFilter (surfKnnMatch dist ((b :: B).map Point2DFeature.descriptor)
          ((a :: A).map Point2DFeature.descriptor)))) := by
  simp [matchFeatures, buildDescriptorMat, except_bind_ok, hcols, hty, pure, Except.pure]

theorem matchFeatures_ok_cases (dist : List ℚ → List ℚ → ℚ)
    (a b : Point2DFeature) (A B : List Point2DFeature) (ms : List DMatch)
    (hok : matchFeatures dist (a :: A) (b :: B) = Except.ok ms) :
    ms = [] ∨
      ms = crossCheck (List.range (a :: A).length) (List.range (b :: B).length)
        (ratioFilter (surfKnnMatch dist ((a :: A).map Point2DFeature.descriptor)
          ((b :: B).map Point2DFeature.descriptor)))
        (ratioFilter (surfKnnMatch dist ((b :: B).map Point2DFeature.descriptor)
          ((a :: A).map Point2DFeature.descriptor))) := by
  by_cases hcols : a.descriptor.length = b.descriptor.length
  · by_cases hty : a.dtype = b.dtype
    · right
      rw [matchFeatures_ok_eval dist a b A B hcols hty] at hok
      exact (Except.ok.inj hok).symm
    · left
      have heval : matchFeatures dist (a :: A) (b :: B) = Except.ok [] := by
        simp [matchFeatures, buildDescriptorMat, except_bind_ok, hcols, hty, pure,
          Except.pure]
      rw [heval] at hok
      exact (Except.ok.inj hok).symm
  · left
    have heval : matchFeatures dist (a :: A) (b :: B) = Except.ok [] := by
      simp [matchFeatures, buildDescriptorMat, except_bind_ok, hcols, pure, Except.pure]
    rw [heval] at hok
    exact (Except.ok.inj hok).symm

/-! ## Claim C7: cross-check symmetry of `matchFeatures` -/

/-- Claim C7: every match `(i, j)` returned by `matchFeatures` is mutually
best — the ratio-passing nearest neighbor of query row `i` in the train set
is `j`, and the ratio-passing nearest neighbor of train row `j` back in the
query set is `i`. -/
theorem matchFeatures_cross_check_symmetric (dist : List ℚ → List ℚ → ℚ)
    (A B : List Point2DFeature) (ms : List DMatch) (mt : DMatch)
    (hok : matchFeatures dist A B = Except.ok ms) (hm : mt ∈ ms) :
    ratioNN dist (A.map Point2DFeature.descriptor) (B.map Point2DFeature.descriptor)
        mt.queryIdx = some mt.trainIdx ∧
    ratioNN dist (B.map Point2DFeature.descriptor) (A.map Point2DFeature.descriptor)
        mt.trainIdx = some mt.queryIdx := by
  cases A with
  | nil => simp [matchFeatures, buildDescriptorMat, except_bind_err] at hok
  | cons a A2 =>
    cases B with
    | nil => simp [matchFeatures, buildDescriptorMat, except_bind_ok, except_bind_err] at hok
    | cons b B2 =>
      rcases matchFeatures_ok_cases dist a b A2 B2 ms hok with rfl | rfl
      · exact absurd hm (List.not_mem_nil mt)
      · obtain ⟨i, hilen, hstep⟩ := crossCheck_mem _ _ _ _ mt hm
        rw [length_ratioFilter_surfKnn] at hilen
        obtain ⟨f, fr, r, rr, hf, hr, hc1, hc2, hmt⟩ := crossCheckAt_eq_some _ _ _ _ i mt hstep
        rw [getD_ratioFilter _ i (by rw [length_surfKnnMatch]; exact hilen),
          getD_surfKnnMatch dist _ _ i hilen] at hf
        obtain ⟨fb, ftail, hknn, hratio, hfr⟩ := ratioFilterRow_eq_cons _ f fr hf
        have hfmem : f ∈ knnRow dist i
            (((a :: A2).map Point2DFeature.descriptor).getD i [])
            ((b :: B2).map Point2DFeature.descriptor) := by
          rw [hknn]
          exact List.mem_cons_self _ _
        obtain ⟨hfq, hft⟩ := mem_knnRow dist i _ _ f hfmem
        rw [getD_ratioFilter _ f.trainIdx (by rw [length_surfKnnMatch]; exact hft),
          getD_surfKnnMatch dist _ _ f.trainIdx hft] at hr
        obtain ⟨rb, rtail, hrknn, hrratio, hrr⟩ := ratioFilterRow_eq_cons _ r rr hr
        have hrmem : r ∈ knnRow dist f.trainIdx
            (((b :: B2).map Point2DFeature.descriptor).getD f.trainIdx [])
            ((a :: A2).map Point2DFeature.descriptor) := by
          rw [hrknn]
          exact List.mem_cons_self _ _
        obtain ⟨hrq, hrt⟩ := mem_knnRow dist f.trainIdx _ _ r hrmem
        have hlenA : ((a :: A2).map Point2DFeature.descriptor).length = (a :: A2).length :=
          List.length_map _ _
        have hlenB : ((b :: B2).map Point2DFeature.descriptor).length = (b :: B2).length :=
          List.length_map _ _
        have hmtq : mt.queryIdx = i := by
          rw [hmt, hfq]
          exact getD_range _ i (by rw [← hlenA]; exact hilen)
        have hmtt : mt.trainIdx = f.trainIdx := by
          rw [hmt, hrq]
          exact getD_range _ f.trainIdx (by rw [← hlenB]; exact hft)
        constructor
        · unfold ratioNN
          rw [hmtq, getD_ratioFilter _ i (by rw [length_surfKnnMatch]; exact hilen),
            getD_surfKnnMatch dist _ _ i hilen, hf]
          rw [hmtt]
          rfl
        · unfold ratioNN
          rw [hmtt, getD_ratioFilter _ f.trainIdx (by rw [length_surfKnnMatch]; exact hft),
            getD_surfKnnMatch dist _ _ f.trainIdx hft, hr]
          show some r.trainIdx = some mt.queryIdx
          rw [hmtq, ← hc1, hfq]

/-! ## Claim C8: strict ratio-test threshold -/

/-- Claim C8: no match returned by `matchFeatures` has a nearest to
second-nearest distance ratio greater than or equal to the threshold — the
accepted best candidate of the returned query row passes the strict test —
and when every query row with two candidates has ratio exactly equal to the
threshold, no match is returned at all. -/
theorem matchFeatures_ratio_threshold (dist : List ℚ → List ℚ → ℚ)
    (A B : List Point2DFeature) (ms : List DMatch)
    (hok : matchFeatures dist A B = Except.ok ms) :
    (∀ mt ∈ ms, ∃ cand1 cand2 tail,
      knnRow dist mt.queryIdx ((A.map Point2DFeature.descriptor).getD mt.queryIdx [])
          (B.map Point2DFeature.descriptor) = cand1 :: cand2 :: tail ∧
      cand1.trainIdx = mt.trainIdx ∧
      cand1.distance / cand2.distance < k_maxDistanceRatio ∧
      ¬ cand1.distance / cand2.distance ≥ k_maxDistanceRatio) ∧
    ((∀ i cand1 cand2 tail, i < A.length →
        knnRow dist i ((A.map Point2DFeature.descriptor).getD i [])
            (B.map Point2DFeature.descriptor) = cand1 :: cand2 :: tail →
        cand1.distance / cand2.distance = k_maxDistanceRatio) →
      ms = []) := by
  cases A with
  | nil => simp [matchFeatures, buildDescriptorMat, except_bind_err] at hok
  | cons a A2 =>
    cases B with
    | nil => simp [matchFeatures, buildDescriptorMat, except_bind_ok, except_bind_err] at hok
    | cons b B2 =>
      rcases matchFeatures_ok_cases dist a b A2 B2 ms hok with rfl | rfl
      · exact ⟨fun mt hmt => absurd hmt (List.not_mem_nil mt), fun _ => rfl⟩
      · constructor
        · intro mt hm
          obtain ⟨i, hilen, hstep⟩ := crossCheck_mem _ _ _ _ mt hm
          rw [length_ratioFilter_surfKnn] at hilen
          obtain ⟨f, fr, r, rr, hf, hr, hc1, hc2, hmt⟩ :=
            crossCheckAt_eq_some _ _ _ _ i mt hstep
          rw [getD_ratioFilter _ i (by rw [length_surfKnnMatch]; exact hilen),
            getD_surfKnnMatch dist _ _ i hilen] at hf
          obtain ⟨fb, ftail, hknn, hratio, hfr⟩ := ratioFilterRow_eq_cons _ f fr hf
          have hfmem : f ∈ knnRow dist i
              (((a :: A2).map Point2DFeature.descriptor).getD i [])
              ((b :: B2).map Point2DFeature.descriptor) := by
            rw [hknn]
            exact List.mem_cons_self _ _
          obtain ⟨hfq, hft⟩ := mem_knnRow dist i _ _ f hfmem
          rw [getD_ratioFilter _ f.trainIdx (by rw [length_surfKnnMatch]; exact hft),
            getD_surfKnnMatch dist _ _ f.trainIdx hft] at hr
          obtain ⟨rb, rtail, hrknn, hrratio, hrr⟩ := ratioFilterRow_eq_cons _ r rr hr
          have hrmem : r ∈ knnRow dist f.trainIdx
              (((b :: B2).map Point2DFeature.descriptor).getD f.trainIdx [])
              ((a :: A2).map Point2DFeature.descriptor) := by
            rw [hrknn]
            exact List.mem_cons_self _ _
          obtain ⟨hrq, hrt⟩ := mem_knnRow dist f.trainIdx _ _ r hrmem
          have hlenA : ((a :: A2).map Point2DFeature.descriptor).length = (a :: A2).length :=
            List.length_map _ _
          have hlenB : ((b :: B2).map Point2DFeature.descriptor).length = (b :: B2).length :=
            List.length_map _ _
          have hmtq : mt.queryIdx = i := by
            rw [hmt, hfq]
            exact getD_range _ i (by rw [← hlenA]; exact hilen)
          have hmtt : mt.trainIdx = f.trainIdx := by
            rw [hmt, hrq]
            exact getD_range _ f.trainIdx (by rw [← hlenB]; exact hft)
          refine ⟨f, fb, ftail, ?_, hmtt.symm, hratio, not_le.mpr hratio⟩
          rw [hmtq]
          exact hknn
        · intro hall
          unfold crossCheck
          apply List.filterMap_eq_nil_iff.mpr
          intro i hi
          rw [List.mem_range, length_ratioFilter_surfKnn] at hi
          apply crossCheckAt_none_of_empty_row
          rw [getD_ratioFilter _ i (by rw [length_surfKnnMatch]; exact hi),
            getD_surfKnnMatch dist _ _ i hi]
          cases hrow : knnRow dist i (((a :: A2).map Point2DFeature.descriptor).getD i [])
              ((b :: B2).map Point2DFeature.descriptor) with
          | nil => rfl
          | cons c1 crest =>
            cases crest with
            | nil => rfl
            | cons c2 ctail =>
              have heq := hall i c1 c2 ctail (by rw [← List.length_map (a :: A2) Point2DFeature.descriptor]; exact hi) hrow
              simp only [ratioFilterRow]
              rw [if_neg (by rw [heq]; exact lt_irrefl _)]

/-- Concrete evaluation of the matcher on width-1 descriptors: query
descriptors `0` and `10` against train descriptors `1` and `100` under the
absolute-difference distance produce the single mutual match `(0, 0)`
(query row 1 maps forward to train row 0, but train row 0 maps back to query
row 0, so the cross-check drops it; train row 1 fails the ratio test with
ratio `90 / 100`). -/
theorem cex_matchFeatures_eval :
    matchFeatures cexDist cexQueryFeatures cexTrainFeatures =
      Except.ok [⟨0, 0, 0⟩] := by
  norm_num [matchFeatures, buildDescriptorMat, except_bind_ok, pure, Except.pure,
    cexDist, cexQueryFeatures, cexTrainFeatures, surfKnnMatch, knnRow, sortByDistance,
    insertByDistance, ratioFilter, ratioFilterRow, crossCheck, crossCheckAt,
    k_maxDistanceRatio, List.range_succ, List.filterMap_append, List.filterMap_cons,
    List.getD]

/-- Claim C7 witness: the matcher applied to the concrete descriptor sets
returns the match `(0, 0)`, and both nearest-neighbor directions agree on
it. -/
theorem matchFeatures_cross_check_symmetric_witness :
    ratioNN cexDist (cexQueryFeatures.map Point2DFeature.descriptor)
        (cexTrainFeatures.map Point2DFeature.descriptor) 0 = some 0 ∧
    ratioNN cexDist (cexTrainFeatures.map Point2DFeature.descriptor)
        (cexQueryFeatures.map Point2DFeature.descriptor) 0 = some 0 :=
  matchFeatures_cross_check_symmetric cexDist cexQueryFeatures cexTrainFeatures
    [⟨0, 0, 0⟩] ⟨0, 0, 0⟩ cex_matchFeatures_eval (List.mem_singleton.mpr rfl)

/-- Claim C8 witness: the ratio-threshold statement applied to the concrete
descriptor sets. -/
theorem matchFeatures_ratio_threshold_witness :
    (∀ mt ∈ [(⟨0, 0, 0⟩ : DMatch)], ∃ cand1 cand2 tail,
      knnRow cexDist mt.queryIdx
          ((cexQueryFeatures.map Point2DFeature.descriptor).getD mt.queryIdx [])
          (cexTrainFeatures.map Point2DFeature.descriptor) = cand1 :: cand2 :: tail ∧
      cand1.trainIdx = mt.trainIdx ∧
      cand1.distance / cand2.distance < k_maxDistanceRatio ∧
      ¬ cand1.distance / cand2.distance ≥ k_maxDistanceRatio) ∧
    ((∀ i cand1 cand2 tail, i < cexQueryFeatures.length →
        knnRow cexDist i ((cexQueryFeatures.map Point2DFeature.descriptor).getD i [])
            (cexTrainFeatures.map Point2DFeature.descriptor) = cand1 :: cand2 :: tail →
        cand1.distance / cand2.distance = k_maxDistanceRatio) →
      [(⟨0, 0, 0⟩ : DMatch)] = []) :=
  matchFeatures_ratio_threshold cexDist cexQueryFeatures cexTrainFeatures [⟨0, 0, 0⟩]
    cex_matchFeatures_eval

end InfraCalib
